import Mathlib

/- Verification development for the link-caching and monthly-consolidation core
of the hls-stac-parquet repository.  Asynchronous Python code is modelled as
pure functions over explicit oracles and completion schedules: a per-link
fetch outcome is an oracle value (`some` item for a successful GET plus JSON
parse, `none` when the fetch raised and the exception was caught), and the
order in which concurrently running tasks complete is an explicit schedule of
task indices. -/

namespace HlsStacParquet

/- Model of fetch.py: the bounded-concurrency fetcher. -/

/-- Model of the task body `fetch_with_error_handling` (fetch.py lines
98-108): it returns `(item, None)` on success and `(None, link)` on a caught
per-link failure, never propagating the exception. -/
def fetch_with_error_handling {α β : Type} (fetch : α → Option β) (link : α) :
    Option β × Option α :=
  match fetch link with
  | some item => (some item, none)
  | none => (none, some link)

/-- Model of the result-separation loop of `fetch_stac_items` (fetch.py lines
120-128): successful items and failed links are appended in the order the
result pairs are traversed. -/
def partition_results {α β : Type} : List (Option β × Option α) → List β × List α
  | [] => ([], [])
  | (item, failed) :: rest =>
    let acc := partition_results rest
    (match item with | some d => d :: acc.1 | none => acc.1,
     match failed with | some l => l :: acc.2 | none => acc.2)

/-- The task list built by `fetch_stac_items` (fetch.py lines 86-111): one
task per link; the empty-input early return (line 86) schedules no tasks. -/
def scheduled_tasks {α β : Type} (fetch : α → Option β) (stac_links : List α) :
    List (Option β × Option α) :=
  if stac_links.isEmpty then [] else stac_links.map (fetch_with_error_handling fetch)

/-- Stable ascending insertion of an element into a list according to a
natural-number key: the element is placed before the first entry whose key is
not smaller. -/
def ordered_insert_keyed {γ : Type} (key : γ → Nat) (a : γ) : List γ → List γ
  | [] => [a]
  | b :: l => if key a ≤ key b then a :: b :: l else b :: ordered_insert_keyed key a l

/-- Stable ascending sort by a natural-number key.  Python's `sorted` and
`list.sort` are stable ascending sorts, and a stable ascending sort by a key
is uniquely determined by that contract, so insertion sort is a faithful
model of them. -/
def sort_keyed {γ : Type} (key : γ → Nat) : List γ → List γ
  | [] => []
  | a :: l => ordered_insert_keyed key a (sort_keyed key l)

/-- Model of `asyncio.gather` applied to a list of task results: results come
back in the order the awaitables were passed in, independent of the order the
tasks completed. -/
def asyncio_gather {γ : Type} (tasks : List γ) : List γ := tasks

/-- Model of `tqdm.asyncio.tqdm.gather` applied to a list of task results:
each task is wrapped together with its submission index, the wrapped tasks
are consumed in completion order (the schedule `sched` lists task indices in
the order they complete), and the collected `(index, result)` pairs are then
sorted by index before the bare results are returned.  The indices are
pairwise distinct, so sorting the pairs is sorting by the index key. -/
def tqdm_gather {γ : Type} (tasks : List γ) (sched : List Nat) : List γ :=
  (sort_keyed Prod.fst (sched.filterMap (fun i => tasks.enum[i]?))).map Prod.snd

/-- Model of `fetch_stac_items` (fetch.py lines 73-130): early return on an
empty input, one `fetch_with_error_handling` task per link, the tasks
gathered either through the tqdm progress wrapper or plain `asyncio.gather`,
and the results separated into successful items and failed links. -/
def fetch_stac_items {α β : Type} (fetch : α → Option β) (stac_links : List α)
    (show_progress : Bool) (sched : List Nat) : List β × List α :=
  if stac_links.isEmpty then ([], [])
  else
    let tasks := stac_links.map (fetch_with_error_handling fetch)
    let results := if show_progress then tqdm_gather tasks sched else asyncio_gather tasks
    partition_results results

/- Model of write.py: the spatial sort key deriver.  The external MGRS
tile-to-coordinate collaborator (`mgrs.MGRS().toLatLon`) is an oracle
parameter returning rational coordinates, with `none` standing for a raised
conversion exception; the Hilbert curve collaborator
(`HilbertCurve(14, 2).distance_from_point`) is embedded concretely below. -/

/-- Truncation of a rational towards zero, the behaviour of Python's `int()`
on the result of float arithmetic. -/
def pyInt (q : ℚ) : Int := Int.tdiv q.num q.den

/-- One iteration of the inverse-undo-excess-work loop of
`distance_from_point` for the 2-dimensional curve: the body of
`for i in range(n)` unrolled for `i = 0` (where the else-branch is a no-op
since `t = (point[0] ^ point[0]) & p = 0`) and `i = 1`. -/
def undo_excess_step (q : Nat) (pt : Nat × Nat) : Nat × Nat :=
  let p := q - 1
  let x0 := if pt.1 &&& q != 0 then pt.1 ^^^ p else pt.1
  if pt.2 &&& q != 0 then (x0 ^^^ p, pt.2)
  else
    let t := (x0 ^^^ pt.2) &&& p
    (x0 ^^^ t, pt.2 ^^^ t)

/-- The `while q > 1` loop of `distance_from_point`: `undo_excess_loop 13`
runs the step for `q = 2^13, 2^12, ..., 2^1`. -/
def undo_excess_loop : Nat → Nat × Nat → Nat × Nat
  | 0, pt => pt
  | k + 1, pt => undo_excess_loop k (undo_excess_step (2 ^ (k + 1)) pt)

/-- The second `while q > 1` loop of `distance_from_point`, accumulating the
Gray-decoding mask `t` from the last coordinate: `t ^= q - 1` whenever
`point[n-1] & q` is set. -/
def t_xor_loop : Nat → Nat → Nat → Nat
  | 0, _, t => t
  | k + 1, x1, t =>
    t_xor_loop k x1 (if x1 &&& 2 ^ (k + 1) != 0 then t ^^^ (2 ^ (k + 1) - 1) else t)

/-- Model of `_transpose_to_hilbert_integer` for `n = 2`: the bits of the two
width-`j` coordinates are interleaved, the first coordinate contributing the
more significant bit of each pair. -/
def interleave_transpose : Nat → Nat → Nat → Nat
  | 0, _, _ => 0
  | j + 1, x0, x1 => (x0 % 2) * 2 + x1 % 2 + 4 * interleave_transpose j (x0 / 2) (x1 / 2)

/-- Model of `HilbertCurve(14, 2).distance_from_point([x, y])` from the
`hilbertcurve` package: inverse undo of excess work, Gray encoding
(`point[1] ^= point[0]`), computation of the correction mask `t`, application
of `t` to both coordinates, and the final bit transposition. -/
def distance_from_point (x y : Nat) : Nat :=
  let pt := undo_excess_loop 13 (x, y)
  let x0 := pt.1
  let x1 := pt.2 ^^^ x0
  let t := t_xor_loop 13 x1 0
  interleave_transpose 14 (x0 ^^^ t) (x1 ^^^ t)

/-- Model of `mgrs_to_hilbert_index` (write.py lines 58-88): convert the tile
to coordinates through the external collaborator, scale longitude and
latitude onto a 16384-wide integer grid, clamp both coordinates to
`[0, 16383]`, and take the Hilbert curve distance; any exception from the
conversion (oracle value `none`) degrades to the sentinel `2^28`. -/
def mgrs_to_hilbert_index (toLatLon : String → Option (ℚ × ℚ)) (mgrs_tile : String) : Nat :=
  match toLatLon mgrs_tile with
  | none => 2 ^ 28
  | some (lat, lon) =>
    let x : Int := pyInt ((lon + 180) / 360 * 16384)
    let y : Int := pyInt ((lat + 90) / 180 * 16384)
    let x2 : Int := max 0 (min 16383 x)
    let y2 : Int := max 0 (min 16383 y)
    distance_from_point x2.toNat y2.toNat

/-- Attempted match of the compiled pattern `\.T([0-9]{2}[A-Z]{3})\.` at the
head of the character list, returning the captured group. -/
def is_tile_match_at : List Char → Option (List Char)
  | '.' :: 'T' :: d1 :: d2 :: a1 :: a2 :: a3 :: '.' :: _ =>
    if d1.isDigit && d2.isDigit && a1.isUpper && a2.isUpper && a3.isUpper then
      some [d1, d2, a1, a2, a3]
    else none
  | _ => none

/-- Leftmost regex search: try the pattern at each successive position. -/
def find_tile : List Char → Option String
  | [] => none
  | c :: rest =>
    match is_tile_match_at (c :: rest) with
    | some cs => some (String.mk cs)
    | none => find_tile rest

/-- Model of `extract_mgrs_from_url` (write.py lines 44-55). -/
def extract_mgrs_from_url (url : String) : Option String := find_tile url.data

/-- Model of `hilbert_sort_key` (write.py lines 209-217): the spatial sort
key of a URL; a URL without the tile pattern gets the sentinel `2^28`. -/
def hilbert_sort_key (toLatLon : String → Option (ℚ × ℚ)) (url : String) : Nat :=
  match extract_mgrs_from_url url with
  | some mgrs_tile => mgrs_to_hilbert_index toLatLon mgrs_tile
  | none => 2 ^ 28

/-- Model of `stac_json_links.sort(key=hilbert_sort_key)` (write.py line
219): the accumulated URL list sorted stably and ascending by spatial sort
key before the fetch step of the monthly consolidator. -/
def monthly_sorted_links (toLatLon : String → Option (ℚ × ℚ))
    (stac_json_links : List String) : List String :=
  sort_keyed (hilbert_sort_key toLatLon) stac_json_links

/- Model of constants.py and the calendar arithmetic of write.py. -/

/-- Leap-year rule of the proleptic Gregorian calendar used by `datetime`. -/
def is_leap_year (y : Nat) : Bool := y % 4 == 0 && (y % 100 != 0 || y % 400 == 0)

/-- Number of days of a month in the Gregorian calendar. -/
def days_in_month (y m : Nat) : Nat :=
  if m == 2 then (if is_leap_year y then 29 else 28)
  else if m == 4 || m == 6 || m == 9 || m == 11 then 30
  else 31

/-- Model of `datetime(year, month, day) - timedelta(days=1)` on a
`(year, month, day)` triple. -/
def pred_day : Nat × Nat × Nat → Nat × Nat × Nat
  | (y, m, d) =>
    if 1 < d then (y, m, d - 1)
    else if 1 < m then (y, m - 1, days_in_month y (m - 1))
    else (y - 1, 12, 31)

/-- Model of write.py lines 173-177: the last date of the target month is
the first day of the next month minus one day, December rolling over to
January of the next year. -/
def last_date_in_month (year month : Nat) : Nat × Nat × Nat :=
  let next_month := if month < 12 then month + 1 else 1
  let next_year := if month < 12 then year else year + 1
  pred_day (next_year, next_month, 1)

/-- The two HLS collections (constants.py lines 22-41). -/
inductive HlsCollection where
  | HLSL30
  | HLSS30
deriving DecidableEq

/-- The string value of the collection enum member. -/
def HlsCollection.value : HlsCollection → String
  | .HLSL30 => "HLSL30"
  | .HLSS30 => "HLSS30"

/-- Model of the `collection_id` property: the value with `_2.0` appended. -/
def HlsCollection.collection_id (c : HlsCollection) : String := c.value ++ "_2.0"

/-- Model of `COLLECTION_ORIGIN_DATES` (constants.py lines 11-14) as
`(year, month, day)` triples. -/
def HlsCollection.origin_date : HlsCollection → Nat × Nat × Nat
  | .HLSL30 => (2013, 4, 11)
  | .HLSS30 => (2015, 11, 28)

/-- Zero-padded two-digit rendering, Python's `{:02d}` format. -/
def pad2 (n : Nat) : String := if n < 10 then "0" ++ toString n else toString n

/-- Model of `LINK_PATH_FORMAT` (constants.py lines 6-7):
`links/{collection_id}/{year}/{month:02d}/{year}-{month:02d}-{day:02d}.json`. -/
def link_path (collection_id : String) (year month day : Nat) : String :=
  "links/" ++ collection_id ++ "/" ++ toString year ++ "/" ++ pad2 month ++ "/" ++
    toString year ++ "-" ++ pad2 month ++ "-" ++ pad2 day ++ ".json"

/-- Model of the `expected_links` list comprehension of
`write_monthly_stac_geoparquet` (write.py lines 179-196): one daily key per
day from the first expected day through the last day of the month, the first
expected day being the collection's origin day when the target month is the
origin month and day 1 otherwise. -/
def expected_links (c : HlsCollection) (year month : Nat) : List String :=
  let last_day := (last_date_in_month year month).2.2
  let origin := c.origin_date
  let first_day := if year = origin.1 ∧ month = origin.2.1 then origin.2.2 else 1
  (List.range' first_day (last_day + 1 - first_day)).map
    (fun day => link_path c.collection_id year month day)

/-- Model of Python's `set(a) == set(b)` on lists of strings. -/
def set_eq (a b : List String) : Bool :=
  a.all (fun x => b.contains x) && b.all (fun x => a.contains x)

/-- Model of the `require_complete_links` completeness check of
`write_monthly_stac_geoparquet` (write.py lines 198-202): `none` means the
check passes, `some payload` means a `ValueError` is raised whose message
consists of the `expected these links` section joining the first list and
the `found these links` section joining the second list.  Note the source
joins `stac_json_links` (the accumulated STAC item URLs), not
`actual_links` (the daily keys found in storage), into the found section. -/
def completeness_check (c : HlsCollection) (year month : Nat)
    (actual_links stac_json_links : List String) : Option (List String × List String) :=
  let expected := expected_links c year month
  if set_eq expected actual_links then none else some (expected, stac_json_links)

/- Model of cmr_api.py: the paginated result collector. -/

/-- Model of the `while True` pagination loop of `get_cmr_results_async`
(cmr_api.py lines 57-69), driven against a mock catalog whose successive
responses are the list `pages`, each response being a batch of records
together with the optional `cmr-search-after` response header.  The first
component of the result collects the cursor header sent with each issued
request (starting from `cur`), the second the records yielded in order;
iteration stops after the first response carrying no cursor token, and a
request finding the catalog exhausted yields no records. -/
def run_paginated {γ : Type} : Option String → List (List γ × Option String) →
    List (Option String) × List γ
  | cur, [] => ([cur], [])
  | cur, (recs, next) :: rest =>
    match next with
    | none => ([cur], recs)
    | some c =>
      let acc := run_paginated (some c) rest
      (cur :: acc.1, recs ++ acc.2)

/-- The collector entry point: the first request carries no cursor. -/
def get_cmr_results {γ : Type} (pages : List (List γ × Option String)) :
    List (Option String) × List γ :=
  run_paginated none pages

/- Model of links.py: the daily cache writer, over an explicit object-store
state.  The CMR query outcome for the day is an oracle parameter
(`query_links`), and the returned triple records the resulting store state,
the number of storage puts performed, and whether the catalog was queried. -/

/-- Object-store state: stored objects as path-content pairs. -/
abbrev StoreState := List (String × String)

/-- Model of `obstore.head_async` probing (`_check_exists`, links.py lines
28-33): whether an object exists at the path. -/
def store_head (s : StoreState) (path : String) : Bool := s.any (fun e => e.1 == path)

/-- Model of `obstore.put_async`: record the object at the path. -/
def store_put (s : StoreState) (path content : String) : StoreState := (path, content) :: s

/-- Model of `json.dumps` on a list of URL strings (links.py line 58). -/
def json_dumps_links (links : List String) : String :=
  "[" ++ String.intercalate ", " (links.map (fun l => "\"" ++ l ++ "\"")) ++ "]"

/-- Model of `cache_daily_stac_json_links` (links.py lines 62-119): compute
the deterministic cache path; when `skip_existing` is set and the object
exists, return immediately with no query and no put; otherwise query the day
(the oracle `query_links`) and put the JSON array at the path.  The function
has no failure branch of its own: storage and query failures are outside the
model, and an empty query result is persisted as an empty array. -/
def cache_daily_stac_json_links (c : HlsCollection) (year month day : Nat)
    (query_links : List String) (skip_existing : Bool) (store : StoreState) :
    Except String (StoreState × Nat × Bool) :=
  let out_path := link_path c.collection_id year month day
  if skip_existing && store_head store out_path then .ok (store, 0, false)
  else .ok (store_put store out_path (json_dumps_links query_links), 1, true)

/-- Model of the empty-result guard of `hls_to_stac_geoparquet` (main.py
lines 52-53): `raise ValueError` when no STAC JSON links were extracted. -/
def hls_to_stac_geoparquet_link_check (stac_links : List String) : Except String Unit :=
  if stac_links.isEmpty then .error "No STAC JSON links found in CMR results" else .ok ()

/- Model of validation.py. -/

/-- Model of `validate_bbox` (validation.py lines 6-40): the sequence of
range and orientation checks on `(min_lon, min_lat, max_lon, max_lat)`,
returning the bbox unchanged when all pass. -/
def validate_bbox (bbox : ℚ × ℚ × ℚ × ℚ) : Except String (ℚ × ℚ × ℚ × ℚ) :=
  let min_lon := bbox.1
  let min_lat := bbox.2.1
  let max_lon := bbox.2.2.1
  let max_lat := bbox.2.2.2
  if ¬(-180 ≤ min_lon ∧ min_lon ≤ 180) then .error "min_lon must be between -180 and 180"
  else if ¬(-180 ≤ max_lon ∧ max_lon ≤ 180) then .error "max_lon must be between -180 and 180"
  else if ¬(-90 ≤ min_lat ∧ min_lat ≤ 90) then .error "min_lat must be between -90 and 90"
  else if ¬(-90 ≤ max_lat ∧ max_lat ≤ 90) then .error "max_lat must be between -90 and 90"
  else if min_lon ≥ max_lon then .error "min_lon must be less than max_lon"
  else if min_lat ≥ max_lat then .error "min_lat must be less than max_lat"
  else .ok bbox

/- Model of cmr_api.py: the query builder.  The external `python_cmr`
library's `GranuleQuery` is a parameter record: its `collection_concept_id`,
`bounding_box`, `temporal` and `format` methods store their arguments on the
query, and `bounding_box` does not range-validate the coordinates. -/

/-- The parameter record accumulated on a `GranuleQuery` by
`create_hls_query`. -/
structure GranuleQuery where
  collection_concept_ids : List String
  bounding_box : Option (ℚ × ℚ × ℚ × ℚ)
  temporal : Option (String × String)
  format : Option String

/-- Model of `create_hls_query` (cmr_api.py lines 10-38): fixes the two HLS
collection concept ids, stores the optional bounding box and temporal range
on the query, and requests JSON format.  No bounding-box validation happens
on this path — `validate_bbox` is not invoked by `create_hls_query` (nor by
any other caller in the repository), and the external
`GranuleQuery.bounding_box` only records the coordinates — so query building
completes normally for every supplied box. -/
def create_hls_query (bounding_box : Option (ℚ × ℚ × ℚ × ℚ))
    (temporal : Option (String × String)) : Except String GranuleQuery :=
  .ok { collection_concept_ids := ["C2021957657-LPCLOUD", "C2021957295-LPCLOUD"]
        bounding_box := bounding_box
        temporal := temporal
        format := some "json" }

/- Interleaving semantics for the semaphore-gated fetch tasks of
fetch.py lines 96-108: each task acquires the shared semaphore before its
network call (`async with semaphore`) and releases it on every exit path,
whether the fetch returned an item or the exception handler returned the
failed link.  A state assigns a phase to every task of the batch; steps
interleave arbitrarily, and an acquire is only enabled while fewer than `N`
tasks hold the semaphore. -/

/-- Phase of one fetch task. -/
inductive TaskPhase where
  | pending
  | inflight
  | doneOk
  | doneFailed
deriving DecidableEq

/-- Number of tasks currently holding the semaphore (in-flight fetches). -/
def inflight_count (ts : List TaskPhase) : Nat :=
  ts.countP (fun s => s == TaskPhase.inflight)

/-- One scheduler step of the semaphore-gated batch with concurrency limit
`N`: a pending task may acquire the semaphore only while fewer than `N`
fetches are in flight, and an in-flight task may finish — successfully or
with a caught failure — releasing the semaphore either way. -/
inductive FetchStep (N : Nat) : List TaskPhase → List TaskPhase → Prop where
  | acquire (ts : List TaskPhase) (i : Nat) (hp : ts[i]? = some TaskPhase.pending)
      (hsem : inflight_count ts < N) : FetchStep N ts (ts.set i TaskPhase.inflight)
  | finish_ok (ts : List TaskPhase) (i : Nat) (hf : ts[i]? = some TaskPhase.inflight) :
      FetchStep N ts (ts.set i TaskPhase.doneOk)
  | finish_failed (ts : List TaskPhase) (i : Nat) (hf : ts[i]? = some TaskPhase.inflight) :
      FetchStep N ts (ts.set i TaskPhase.doneFailed)

/-- States reachable by the batch of `k` fetch tasks under limit `N`,
starting from all tasks pending. -/
inductive FetchReachable (N k : Nat) : List TaskPhase → Prop where
  | init : FetchReachable N k (List.replicate k TaskPhase.pending)
  | step {s t : List TaskPhase} : FetchReachable N k s → FetchStep N s t →
      FetchReachable N k t

/- Supporting lemmas for the fetcher. -/

theorem partition_results_map {α β : Type} (fetch : α → Option β) :
    ∀ links : List α,
      partition_results (links.map (fetch_with_error_handling fetch)) =
        (links.filterMap fetch, links.filter (fun l => (fetch l).isNone)) := by
  intro links
  induction links with
  | nil => rfl
  | cons a t ih =>
    cases h : fetch a <;>
      simp [fetch_with_error_handling, partition_results, h, ih, List.filterMap_cons,
        List.filter_cons]

theorem filterMap_length_add_filter_length {α β : Type} (fetch : α → Option β) :
    ∀ links : List α,
      (links.filterMap fetch).length + (links.filter (fun l => (fetch l).isNone)).length =
        links.length := by
  intro links
  induction links with
  | nil => rfl
  | cons a t ih =>
    cases h : fetch a <;>
      simp [List.filterMap_cons, List.filter_cons, h] <;> omega

theorem ordered_insert_keyed_perm {γ : Type} (key : γ → Nat) (a : γ) :
    ∀ l : List γ, (ordered_insert_keyed key a l).Perm (a :: l) := by
  intro l
  induction l with
  | nil => simp [ordered_insert_keyed]
  | cons b t ih =>
    by_cases h : key a ≤ key b
    · simp [ordered_insert_keyed, h]
    · simp only [ordered_insert_keyed, if_neg h]
      exact (ih.cons b).trans (List.Perm.swap a b t)

theorem sort_keyed_perm {γ : Type} (key : γ → Nat) :
    ∀ l : List γ, (sort_keyed key l).Perm l := by
  intro l
  induction l with
  | nil => simp [sort_keyed]
  | cons a t ih =>
    exact (ordered_insert_keyed_perm key a (sort_keyed key t)).trans (ih.cons a)

theorem ordered_insert_keyed_sorted {γ : Type} (key : γ → Nat) (a : γ) :
    ∀ l : List γ, List.Sorted (fun u v => key u ≤ key v) l →
      List.Sorted (fun u v => key u ≤ key v) (ordered_insert_keyed key a l) := by
  intro l
  induction l with
  | nil => intro _; simp [ordered_insert_keyed]
  | cons b t ih =>
    intro hs
    rw [List.sorted_cons] at hs
    by_cases h : key a ≤ key b
    · rw [ordered_insert_keyed, if_pos h, List.sorted_cons]
      refine ⟨?_, List.sorted_cons.mpr hs⟩
      intro c hc
      rcases List.mem_cons.mp hc with hc | hc
      · exact hc ▸ h
      · exact le_trans h (hs.1 c hc)
    · rw [ordered_insert_keyed, if_neg h, List.sorted_cons]
      refine ⟨?_, ih hs.2⟩
      intro c hc
      rcases List.mem_cons.mp ((ordered_insert_keyed_perm key a t).mem_iff.mp hc) with hc | hc
      · exact hc ▸ le_of_not_le h
      · exact hs.1 c hc

theorem sort_keyed_sorted {γ : Type} (key : γ → Nat) :
    ∀ l : List γ, List.Sorted (fun u v => key u ≤ key v) (sort_keyed key l) := by
  intro l
  induction l with
  | nil => simp [sort_keyed]
  | cons a t ih => exact ordered_insert_keyed_sorted key a _ ih

/-- A list sorted weakly by key that is a permutation of a list sorted
strictly by key is equal to it: strict sortedness makes the keys pairwise
distinct, pinning the order down. -/
theorem eq_of_perm_of_sorted_of_strict {γ : Type} (key : γ → Nat) :
    ∀ {e l : List γ}, l.Perm e → List.Sorted (fun u v => key u ≤ key v) l →
      List.Sorted (fun u v => key u < key v) e → l = e := by
  intro e
  induction e with
  | nil =>
    intro l hp _ _
    exact hp.eq_nil
  | cons b t ih =>
    intro l hp hl he
    cases l with
    | nil => exact absurd hp.symm.eq_nil (by simp)
    | cons a l =>
      rw [List.sorted_cons] at hl he
      have hab : a = b := by
        by_contra hne
        have ha : a ∈ b :: t := hp.subset (List.mem_cons_self a l)
        have ha' : a ∈ t := by
          rcases List.mem_cons.mp ha with h | h
          · exact absurd h hne
          · exact h
        have hb : b ∈ a :: l := hp.symm.subset (List.mem_cons_self b t)
        have hb' : b ∈ l := by
          rcases List.mem_cons.mp hb with h | h
          · exact absurd h.symm hne
          · exact h
        have h1 : key b < key a := he.1 a ha'
        have h2 : key a ≤ key b := hl.1 b hb'
        omega
      subst hab
      have := ih hp.cons_inv hl.2 he.2
      rw [this]

theorem filterMap_getElem_range {γ : Type} :
    ∀ l : List γ, (List.range l.length).filterMap (fun i => l[i]?) = l := by
  intro l
  induction l with
  | nil => rfl
  | cons a t ih =>
    rw [List.length_cons, List.range_succ_eq_map, List.filterMap_cons, List.filterMap_map]
    have hf : ((fun i => (a :: t)[i]?) ∘ Nat.succ) = fun i => t[i]? := by
      funext i
      simp
    simp only [List.getElem?_cons_zero, hf, ih]

theorem enum_sorted_fst {γ : Type} (l : List γ) :
    List.Sorted (fun p q : Nat × γ => p.1 < q.1) l.enum := by
  rw [List.Sorted, List.pairwise_iff_getElem]
  intro i j hi hj hij
  simp only [List.getElem_enum]
  exact hij

theorem tqdm_gather_eq {γ : Type} (tasks : List γ) (sched : List Nat)
    (hsched : sched.Perm (List.range tasks.length)) :
    tqdm_gather tasks sched = tasks := by
  have h1 : (sched.filterMap (fun i => tasks.enum[i]?)).Perm tasks.enum := by
    have h2 := hsched.filterMap (fun i => tasks.enum[i]?)
    rw [← List.enum_length (l := tasks), filterMap_getElem_range] at h2
    exact h2
  have h3 : sort_keyed Prod.fst (sched.filterMap (fun i => tasks.enum[i]?)) = tasks.enum :=
    eq_of_perm_of_sorted_of_strict Prod.fst ((sort_keyed_perm Prod.fst _).trans h1)
      (sort_keyed_sorted Prod.fst _) (enum_sorted_fst tasks)
  rw [tqdm_gather, h3, List.enum_map_snd]

theorem fetch_stac_items_eq {α β : Type} (fetch : α → Option β) (stac_links : List α)
    (show_progress : Bool) (sched : List Nat)
    (hsched : sched.Perm (List.range stac_links.length)) :
    fetch_stac_items fetch stac_links show_progress sched =
      (stac_links.filterMap fetch, stac_links.filter (fun l => (fetch l).isNone)) := by
  cases stac_links with
  | nil => cases show_progress <;> rfl
  | cons a t =>
    rw [fetch_stac_items, if_neg (by simp)]
    cases show_progress
    · exact partition_results_map fetch (a :: t)
    · show partition_results
          (tqdm_gather ((a :: t).map (fetch_with_error_handling fetch)) sched) = _
      rw [tqdm_gather_eq _ sched (by rw [List.length_map]; exact hsched)]
      exact partition_results_map fetch (a :: t)

/- Supporting lemmas for the spatial sort key. -/

theorem interleave_transpose_lt (j : Nat) :
    ∀ x0 x1 : Nat, interleave_transpose j x0 x1 < 4 ^ j := by
  induction j with
  | zero => intro x0 x1; simp [interleave_transpose]
  | succ j ih =>
    intro x0 x1
    have h0 : x0 % 2 < 2 := Nat.mod_lt x0 (by omega)
    have h1 : x1 % 2 < 2 := Nat.mod_lt x1 (by omega)
    have h2 := ih (x0 / 2) (x1 / 2)
    have h3 : (4 : Nat) ^ (j + 1) = 4 * 4 ^ j := by ring
    rw [interleave_transpose, h3]
    omega

theorem distance_from_point_lt (x y : Nat) : distance_from_point x y < 2 ^ 28 :=
  calc distance_from_point x y < 4 ^ 14 := interleave_transpose_lt 14 _ _
  _ = 2 ^ 28 := by norm_num

theorem mgrs_to_hilbert_index_le (toLatLon : String → Option (ℚ × ℚ)) (t : String) :
    mgrs_to_hilbert_index toLatLon t ≤ 2 ^ 28 := by
  rw [mgrs_to_hilbert_index]
  cases toLatLon t with
  | none => exact le_refl _
  | some c => exact le_of_lt (distance_from_point_lt _ _)

theorem mgrs_to_hilbert_index_eq_sentinel_iff (toLatLon : String → Option (ℚ × ℚ))
    (t : String) : mgrs_to_hilbert_index toLatLon t = 2 ^ 28 ↔ toLatLon t = none := by
  rw [mgrs_to_hilbert_index]
  cases h : toLatLon t with
  | none => simp
  | some c =>
    simp only [h]
    constructor
    · intro heq
      exact absurd heq (Nat.ne_of_lt (distance_from_point_lt _ _))
    · intro hc
      exact absurd hc (by simp)

theorem hilbert_sort_key_le (toLatLon : String → Option (ℚ × ℚ)) (url : String) :
    hilbert_sort_key toLatLon url ≤ 2 ^ 28 := by
  rw [hilbert_sort_key]
  cases extract_mgrs_from_url url with
  | none => exact le_refl _
  | some t => exact mgrs_to_hilbert_index_le toLatLon t

theorem hilbert_sort_key_sentinel_iff (toLatLon : String → Option (ℚ × ℚ)) (url : String) :
    hilbert_sort_key toLatLon url = 2 ^ 28 ↔
      extract_mgrs_from_url url = none ∨
        ∃ t, extract_mgrs_from_url url = some t ∧ toLatLon t = none := by
  rw [hilbert_sort_key]
  cases h : extract_mgrs_from_url url with
  | none => simp
  | some t =>
    simp only [h, reduceCtorEq, false_or]
    rw [mgrs_to_hilbert_index_eq_sentinel_iff]
    constructor
    · intro hn
      exact ⟨t, rfl, hn⟩
    · rintro ⟨t2, ht2, hn⟩
      cases Option.some_injective _ ht2
      exact hn

/- Stability of the keyed insertion sort. -/

theorem filter_ordered_insert_of_eq {γ : Type} (key : γ → Nat) (k : Nat) (a : γ)
    (ha : key a = k) :
    ∀ l : List γ, (ordered_insert_keyed key a l).filter (fun u => decide (key u = k)) =
      a :: l.filter (fun u => decide (key u = k)) := by
  intro l
  induction l with
  | nil => simp [ordered_insert_keyed, ha]
  | cons b t ih =>
    by_cases h : key a ≤ key b
    · rw [ordered_insert_keyed, if_pos h, List.filter_cons, if_pos (by simp [ha])]
    · have hb : key b ≠ k := by omega
      rw [ordered_insert_keyed, if_neg h, List.filter_cons, if_neg (by simp [hb]), ih,
        List.filter_cons, if_neg (by simp [hb])]

theorem filter_ordered_insert_of_ne {γ : Type} (key : γ → Nat) (k : Nat) (a : γ)
    (ha : key a ≠ k) :
    ∀ l : List γ, (ordered_insert_keyed key a l).filter (fun u => decide (key u = k)) =
      l.filter (fun u => decide (key u = k)) := by
  intro l
  induction l with
  | nil => simp [ordered_insert_keyed, ha]
  | cons b t ih =>
    by_cases h : key a ≤ key b
    · rw [ordered_insert_keyed, if_pos h, List.filter_cons, if_neg (by simp [ha])]
    · rw [ordered_insert_keyed, if_neg h, List.filter_cons, List.filter_cons, ih]

theorem sort_keyed_filter_eq {γ : Type} (key : γ → Nat) (k : Nat) :
    ∀ l : List γ, (sort_keyed key l).filter (fun u => decide (key u = k)) =
      l.filter (fun u => decide (key u = k)) := by
  intro l
  induction l with
  | nil => rfl
  | cons a t ih =>
    by_cases ha : key a = k
    · rw [sort_keyed, filter_ordered_insert_of_eq key k a ha, ih, List.filter_cons,
        if_pos (by simp [ha])]
    · rw [sort_keyed, filter_ordered_insert_of_ne key k a ha, ih, List.filter_cons,
        if_neg (by simp [ha])]

/-- A list that is sorted ascending by key splits into the elements below a
threshold followed by the elements at or above it. -/
theorem sorted_eq_filter_append {γ : Type} (key : γ → Nat) (M : Nat) :
    ∀ l : List γ, List.Sorted (fun u v => key u ≤ key v) l →
      l = l.filter (fun u => decide (key u < M)) ++
        l.filter (fun u => !decide (key u < M)) := by
  intro l
  induction l with
  | nil => intro _; rfl
  | cons a t ih =>
    intro hs
    rw [List.sorted_cons] at hs
    by_cases h : key a < M
    · rw [List.filter_cons, if_pos (by simp [h]), List.filter_cons, if_neg (by simp [h]),
        List.cons_append]
      exact congrArg (a :: ·) (ih hs.2)
    · have hall : ∀ b ∈ t, ¬ key b < M := by
        intro b hb
        have := hs.1 b hb
        omega
      rw [List.filter_cons, if_neg (by simp [h]), List.filter_cons, if_pos (by simp [h])]
      rw [List.filter_eq_nil_iff.mpr (by intro b hb; simp [hall b hb]),
        List.filter_eq_self.mpr (by intro b hb; simp [hall b hb]), List.nil_append]

/- Supporting lemmas for the paginated collector. -/

theorem run_paginated_general {γ : Type} :
    ∀ (pages : List (List γ × Option String)) (cur : Option String) (hne : pages ≠ [])
      (_ : (pages.getLast hne).2 = none) (_ : ∀ p ∈ pages.dropLast, p.2 ≠ none),
      run_paginated cur pages =
        (cur :: pages.dropLast.map Prod.snd, (pages.map Prod.fst).flatten) := by
  intro pages
  induction pages with
  | nil => intro cur hne _ _; exact absurd rfl hne
  | cons a rest ih =>
    intro cur hne hlast hmid
    cases rest with
    | nil =>
      have ha : a.2 = none := hlast
      obtain ⟨recs, next⟩ := a
      simp only at ha
      subst ha
      simp [run_paginated]
    | cons b rest2 =>
      have hane : a.2 ≠ none := hmid a (by rw [List.dropLast_cons₂]; exact List.mem_cons_self a _)
      obtain ⟨recs, next⟩ := a
      simp only at hane
      cases hn : next with
      | none => exact absurd hn hane
      | some c =>
        subst hn
        have h1 := ih (some c) (by simp)
          (by rw [← List.getLast_cons (l := b :: rest2) (by simp)]; exact hlast)
          (by
            intro p hp
            exact hmid p (by rw [List.dropLast_cons₂]; exact List.mem_cons_of_mem _ hp))
        rw [run_paginated]
        simp only [h1, List.dropLast_cons₂, List.map_cons, List.flatten_cons]

/- Supporting lemmas for the daily cache writer. -/

theorem store_head_put (s : StoreState) (path content : String) :
    store_head (store_put s path content) path = true := by
  simp [store_head, store_put]

/- Supporting lemmas for the semaphore model. -/

theorem countP_set_phase (p : TaskPhase → Bool) :
    ∀ (ts : List TaskPhase) (i : Nat) (v x : TaskPhase), ts[i]? = some v →
      (ts.set i x).countP p + (if p v then 1 else 0) =
        ts.countP p + (if p x then 1 else 0) := by
  intro ts
  induction ts with
  | nil => intro i v x h; simp at h
  | cons a t ih =>
    intro i v x h
    cases i with
    | zero =>
      rw [List.getElem?_cons_zero] at h
      injection h with hv
      subst hv
      rw [List.set_cons_zero, List.countP_cons, List.countP_cons]
      omega
    | succ i =>
      rw [List.getElem?_cons_succ] at h
      rw [List.set_cons_succ, List.countP_cons, List.countP_cons]
      have := ih i v x h
      omega

theorem inflight_count_replicate (k : Nat) :
    inflight_count (List.replicate k TaskPhase.pending) = 0 := by
  induction k with
  | zero => rfl
  | succ k ih =>
    rw [List.replicate_succ, inflight_count, List.countP_cons]
    rw [inflight_count] at ih
    simp [ih]

/- Supporting lemma for bounding-box validation. -/

theorem validate_bbox_ok_iff (w s e n : ℚ) :
    validate_bbox (w, s, e, n) = .ok (w, s, e, n) ↔
      (-180 ≤ w ∧ w ≤ 180 ∧ -180 ≤ e ∧ e ≤ 180 ∧ -90 ≤ s ∧ s ≤ 90 ∧
        -90 ≤ n ∧ n ≤ 90 ∧ w < e ∧ s < n) := by
  rw [validate_bbox]
  split_ifs with h1 h2 h3 h4 h5 h6
  all_goals first
    | exact iff_of_true rfl
        ⟨h1.1, h1.2, h2.1, h2.2, h3.1, h3.2, h4.1, h4.2, not_le.mp h5, not_le.mp h6⟩
    | · refine iff_of_false (by simp) ?_
        rintro ⟨p1, p2, p3, p4, p5, p6, p7, p8, p9, p10⟩
        first
          | exact h1 ⟨p1, p2⟩
          | exact h2 ⟨p3, p4⟩
          | exact h3 ⟨p5, p6⟩
          | exact h4 ⟨p7, p8⟩
          | exact absurd p9 (not_lt.mpr h5)
          | exact absurd p10 (not_lt.mpr h6)

/- Claim theorems. -/

/-- C1: for every list of links submitted to the bounded-concurrency fetcher
the returned pair partitions the input — the successes are exactly the
documents of the links whose fetch succeeded and the failures exactly the
links whose fetch failed, so the lengths add up to the number of links — and
for the empty input both returned lists are empty and no fetch task is
scheduled; this holds for every completion schedule of the batch and with or
without the progress bar. -/
theorem fetcher_partitions_input {α β : Type} (fetch : α → Option β) (stac_links : List α)
    (show_progress : Bool) (sched : List Nat)
    (hsched : sched.Perm (List.range stac_links.length)) :
    (fetch_stac_items fetch stac_links show_progress sched).1.length +
        (fetch_stac_items fetch stac_links show_progress sched).2.length =
      stac_links.length ∧
    (fetch_stac_items fetch stac_links show_progress sched).1 =
      stac_links.filterMap fetch ∧
    (fetch_stac_items fetch stac_links show_progress sched).2 =
      stac_links.filter (fun l => (fetch l).isNone) ∧
    fetch_stac_items fetch ([] : List α) show_progress sched = ([], []) ∧
    scheduled_tasks fetch ([] : List α) = [] := by
  have h := fetch_stac_items_eq fetch stac_links show_progress sched hsched
  refine ⟨?_, by rw [h], by rw [h], by cases show_progress <;> rfl, rfl⟩
  rw [h]
  exact filterMap_length_add_filter_length fetch stac_links

/-- Witness for C1: a concrete three-link batch with one failing link and a
permuted completion schedule. -/
theorem fetcher_partitions_input_witness :
    (fetch_stac_items (fun s : String => if s == "bad" then none else some s)
          ["a", "bad", "c"] true [2, 0, 1]).1.length +
        (fetch_stac_items (fun s : String => if s == "bad" then none else some s)
          ["a", "bad", "c"] true [2, 0, 1]).2.length = 3 := by
  have h := fetcher_partitions_input
    (fun s : String => if s == "bad" then none else some s) ["a", "bad", "c"] true
    [2, 0, 1] (by decide)
  exact h.1

/-- C2 (code bug): at a failing input — HLSS30 in its origin month November
2015, only the day-28 daily key found in storage, one accumulated STAC item
URL — the completeness check raises and the expected key set is exactly days
28-30, but the found section of the raised error enumerates the accumulated
STAC item URLs (`stac_json_links`) instead of the found daily key set
(`actual_links`); with all three daily keys present the check passes. -/
theorem completeness_error_lists_item_urls :
    completeness_check HlsCollection.HLSS30 2015 11
        [link_path "HLSS30_2.0" 2015 11 28] ["https://example.com/item_stac.json"] =
      some (expected_links HlsCollection.HLSS30 2015 11,
        ["https://example.com/item_stac.json"]) ∧
    expected_links HlsCollection.HLSS30 2015 11 =
      [link_path "HLSS30_2.0" 2015 11 28, link_path "HLSS30_2.0" 2015 11 29,
        link_path "HLSS30_2.0" 2015 11 30] ∧
    (["https://example.com/item_stac.json"] : List String) ≠
      [link_path "HLSS30_2.0" 2015 11 28] ∧
    completeness_check HlsCollection.HLSS30 2015 11
        [link_path "HLSS30_2.0" 2015 11 28, link_path "HLSS30_2.0" 2015 11 29,
          link_path "HLSS30_2.0" 2015 11 30]
        ["https://example.com/item_stac.json"] = none := by
  refine ⟨by rfl, by rfl, by decide, by rfl⟩

/-- C3: the spatial sort key derivation is total and deterministic, returns
a non-negative integer for every URL string, returns exactly `2^28` when the
tile pattern is absent from the URL, degrades to the sentinel `2^28`
whenever the tile-to-coordinate conversion raises, and evaluates to the
sentinel on the concrete patternless URL of the specification. -/
theorem spatial_sort_key_safety (toLatLon : String → Option (ℚ × ℚ)) (url : String) :
    0 ≤ hilbert_sort_key toLatLon url ∧
    (extract_mgrs_from_url url = none → hilbert_sort_key toLatLon url = 2 ^ 28) ∧
    (∀ t : String, toLatLon t = none → mgrs_to_hilbert_index toLatLon t = 2 ^ 28) ∧
    hilbert_sort_key toLatLon url = hilbert_sort_key toLatLon url ∧
    hilbert_sort_key toLatLon "https://example.com/no-tile-here.json" = 2 ^ 28 := by
  refine ⟨Nat.zero_le _, ?_, ?_, rfl, ?_⟩
  · intro h
    rw [hilbert_sort_key, h]
  · intro t ht
    rw [mgrs_to_hilbert_index, ht]
  · rfl

/-- Witness for C3: a conversion oracle that always raises yields the
sentinel on the concrete tile of the specification example. -/
theorem spatial_sort_key_safety_witness :
    mgrs_to_hilbert_index (fun _ => none) "60WWV" = 2 ^ 28 :=
  (spatial_sort_key_safety (fun _ => none) "u").2.2.1 "60WWV" rfl

/-- C4: the monthly consolidator sorts the accumulated URL list ascending by
spatial sort key, the sort is stable (every key class keeps its original
relative order), every URL whose tile cannot be resolved — exactly the URLs
carrying the sentinel key `2^28`, characterised in the last conjunct —
appears after every URL with a resolvable tile, and the unresolvable URLs
keep their original relative order. -/
theorem monthly_sort_spatial_order (toLatLon : String → Option (ℚ × ℚ))
    (stac_json_links : List String) :
    List.Sorted (fun u v => hilbert_sort_key toLatLon u ≤ hilbert_sort_key toLatLon v)
      (monthly_sorted_links toLatLon stac_json_links) ∧
    (∀ k : Nat, (monthly_sorted_links toLatLon stac_json_links).filter
        (fun u => decide (hilbert_sort_key toLatLon u = k)) =
      stac_json_links.filter (fun u => decide (hilbert_sort_key toLatLon u = k))) ∧
    monthly_sorted_links toLatLon stac_json_links =
      (monthly_sorted_links toLatLon stac_json_links).filter
          (fun u => decide (hilbert_sort_key toLatLon u < 2 ^ 28)) ++
        stac_json_links.filter (fun u => decide (hilbert_sort_key toLatLon u = 2 ^ 28)) ∧
    (∀ u : String, hilbert_sort_key toLatLon u = 2 ^ 28 ↔
      extract_mgrs_from_url u = none ∨
        ∃ t, extract_mgrs_from_url u = some t ∧ toLatLon t = none) := by
  unfold monthly_sorted_links
  refine ⟨sort_keyed_sorted _ _, fun k => sort_keyed_filter_eq _ k _, ?_,
    fun u => hilbert_sort_key_sentinel_iff toLatLon u⟩
  have hsplit := sorted_eq_filter_append (hilbert_sort_key toLatLon) (2 ^ 28)
    (sort_keyed (hilbert_sort_key toLatLon) stac_json_links)
    (sort_keyed_sorted (hilbert_sort_key toLatLon) stac_json_links)
  have hconv : (sort_keyed (hilbert_sort_key toLatLon) stac_json_links).filter
        (fun u => !decide (hilbert_sort_key toLatLon u < 2 ^ 28)) =
      (sort_keyed (hilbert_sort_key toLatLon) stac_json_links).filter
        (fun u => decide (hilbert_sort_key toLatLon u = 2 ^ 28)) := by
    apply List.filter_congr
    intro u _
    have hle := hilbert_sort_key_le toLatLon u
    rcases lt_or_eq_of_le hle with h | h
    · rw [decide_eq_true h, decide_eq_false (by omega)]
      rfl
    · rw [decide_eq_true h, decide_eq_false (by omega)]
      rfl
  rw [hconv, sort_keyed_filter_eq] at hsplit
  exact hsplit

/-- Witness for C4: concrete instance over an always-failing conversion
oracle and a two-URL list. -/
theorem monthly_sort_spatial_order_witness :
    List.Sorted
      (fun u v =>
        hilbert_sort_key (fun _ => none) u ≤ hilbert_sort_key (fun _ => none) v)
      (monthly_sorted_links (fun _ => none)
        ["https://h/HLS.S30.T60WWV.x_stac.json", "https://h/plain.json"]) :=
  (monthly_sort_spatial_order (fun _ => none)
    ["https://h/HLS.S30.T60WWV.x_stac.json", "https://h/plain.json"]).1

/-- C5 counterexample: with links `["a", "b"]`, both fetches succeeding, and
completion schedule `[1, 0]` — the second task completes first, so the
task-completion order of the successes is `["b", "a"]` — the fetcher still
returns the successes as `["a", "b"]`: the gather step reorders results back
to submission order, so the success list is not in task-completion order. -/
theorem fetcher_completion_order_counterexample :
    (fetch_stac_items (fun s : String => some s) ["a", "b"] true [1, 0]).1 = ["a", "b"] ∧
    (fetch_stac_items (fun s : String => some s) ["a", "b"] true [1, 0]).1 ≠ ["b", "a"] := by
  refine ⟨by rfl, by decide⟩

/-- C5 (amended): the bounded-concurrency fetcher returns its success list
in input submission order — the successes are the fetched documents of the
successful links in the order the links were submitted — for every
completion schedule; the completion order has no effect on the output. -/
theorem fetcher_success_submission_order {α β : Type} (fetch : α → Option β)
    (stac_links : List α) (show_progress : Bool) (sched : List Nat)
    (hsched : sched.Perm (List.range stac_links.length)) :
    (fetch_stac_items fetch stac_links show_progress sched).1 =
      stac_links.filterMap fetch := by
  rw [fetch_stac_items_eq fetch stac_links show_progress sched hsched]

/-- Witness for the amended C5: concrete two-link batch with reversed
completion schedule still yields submission order. -/
theorem fetcher_success_submission_order_witness :
    (fetch_stac_items (fun s : String => some s) ["a", "b"] false [1, 0]).1 =
      ["a", "b"] := by
  have h := fetcher_success_submission_order (fun s : String => some s) ["a", "b"]
    false [1, 0] (by decide)
  exact h

/-- C6: driven against a catalog returning pages of which every response but
the last carries a next-page cursor, the collector terminates and yields the
records of all pages exactly once in page order (the concatenation of the
page batches); the first request carries no cursor, each subsequent request
carries the cursor of the previous response, and exactly one request per
page is issued, iteration stopping with the first cursorless response. -/
theorem paginated_collector_pages {γ : Type} (pages : List (List γ × Option String))
    (hne : pages ≠ []) (hlast : (pages.getLast hne).2 = none)
    (hmid : ∀ p ∈ pages.dropLast, p.2 ≠ none) :
    get_cmr_results pages =
      (none :: pages.dropLast.map Prod.snd, (pages.map Prod.fst).flatten) ∧
    (get_cmr_results pages).1.length = pages.length := by
  have h := run_paginated_general pages none hne hlast hmid
  refine ⟨h, ?_⟩
  have h2 : (get_cmr_results pages).1 = none :: pages.dropLast.map Prod.snd :=
    congrArg Prod.fst h
  rw [h2, List.length_cons, List.length_map, List.length_dropLast]
  have h3 : pages.length ≠ 0 := fun h0 => hne (List.length_eq_zero.mp h0)
  omega

/-- Witness for C6: a concrete three-page catalog. -/
theorem paginated_collector_pages_witness :
    get_cmr_results [([1, 2], some "A"), ([3], some "B"), ([4, 5], (none : Option String))] =
      ([none, some "A", some "B"], [1, 2, 3, 4, 5]) := by
  have h := (paginated_collector_pages
    [([1, 2], some "A"), ([3], some "B"), ([4, 5], (none : Option String))]
    (by decide) (by rfl) (by decide)).1
  exact h.trans (by decide)

/-- C7: with `skip_existing` set and the object already present at the
computed cache path, the daily cache writer returns immediately without
querying the catalog and without performing any storage put; consequently
two calls with identical arguments starting from a store without the object
perform exactly one put in total — the first call writes the JSON array, the
second performs zero writes and returns successfully. -/
theorem daily_cache_skip_existing (c : HlsCollection) (year month day : Nat)
    (query_links : List String) (store : StoreState)
    (habsent : store_head store (link_path c.collection_id year month day) = false) :
    (∀ s : StoreState, store_head s (link_path c.collection_id year month day) = true →
      cache_daily_stac_json_links c year month day query_links true s =
        .ok (s, 0, false)) ∧
    cache_daily_stac_json_links c year month day query_links true store =
      .ok (store_put store (link_path c.collection_id year month day)
            (json_dumps_links query_links), 1, true) ∧
    cache_daily_stac_json_links c year month day query_links true
        (store_put store (link_path c.collection_id year month day)
          (json_dumps_links query_links)) =
      .ok (store_put store (link_path c.collection_id year month day)
            (json_dumps_links query_links), 0, false) := by
  refine ⟨?_, ?_, ?_⟩
  · intro s hs
    simp [cache_daily_stac_json_links, hs]
  · simp [cache_daily_stac_json_links, habsent]
  · simp [cache_daily_stac_json_links, store_head_put]

/-- Witness for C7: second identical call on the concrete store produced by
the first call performs zero writes and returns successfully. -/
theorem daily_cache_skip_existing_witness :
    cache_daily_stac_json_links HlsCollection.HLSL30 2025 10 1 ["https://x_stac.json"]
        true
        (store_put [] (link_path HlsCollection.HLSL30.collection_id 2025 10 1)
          (json_dumps_links ["https://x_stac.json"])) =
      .ok (store_put [] (link_path HlsCollection.HLSL30.collection_id 2025 10 1)
            (json_dumps_links ["https://x_stac.json"]), 0, false) := by
  have h := daily_cache_skip_existing HlsCollection.HLSL30 2025 10 1
    ["https://x_stac.json"] [] (by rfl)
  exact h.2.2

/-- C8 counterexample: building a query with the out-of-range bounding box
`(-181, 46, -92, 47)` does not raise — `create_hls_query` returns the query
with the invalid box stored unvalidated, since no query-building path
invokes `validate_bbox`. -/
theorem create_query_invalid_bbox_counterexample :
    create_hls_query (some (-181, 46, -92, 47)) none =
      .ok { collection_concept_ids := ["C2021957657-LPCLOUD", "C2021957295-LPCLOUD"],
            bounding_box := some (-181, 46, -92, 47),
            temporal := none,
            format := some "json" } := rfl

/-- C8 (amended): the repository's standalone `validate_bbox` implements
exactly the claimed checks — it returns a bounding box unchanged precisely
when the coordinates are in range and not inverted, rejecting
`(-181, 46, -92, 47)` and accepting `(-93, 46, -92, 47)` unchanged — but no
query-building path invokes it: `create_hls_query` stores any supplied
bounding box on the query unvalidated and always completes normally, so
building a query with an invalid bounding box does not fail. -/
theorem bbox_validator_unused_in_query_building (w s e n : ℚ) :
    (validate_bbox (w, s, e, n) = .ok (w, s, e, n) ↔
      (-180 ≤ w ∧ w ≤ 180 ∧ -180 ≤ e ∧ e ≤ 180 ∧ -90 ≤ s ∧ s ≤ 90 ∧
        -90 ≤ n ∧ n ≤ 90 ∧ w < e ∧ s < n)) ∧
    validate_bbox (-181, 46, -92, 47) = .error "min_lon must be between -180 and 180" ∧
    validate_bbox (-93, 46, -92, 47) = .ok (-93, 46, -92, 47) ∧
    (∀ (bb : Option (ℚ × ℚ × ℚ × ℚ)) (tm : Option (String × String)),
      create_hls_query bb tm =
        .ok { collection_concept_ids := ["C2021957657-LPCLOUD", "C2021957295-LPCLOUD"],
              bounding_box := bb,
              temporal := tm,
              format := some "json" }) := by
  refine ⟨validate_bbox_ok_iff w s e n, ?_, ?_, fun bb tm => rfl⟩
  · norm_num [validate_bbox]
  · norm_num [validate_bbox]

/-- Witness for the amended C8: the valid example passes unchanged, through
the iff, and the invalid example still builds a query. -/
theorem bbox_validator_unused_in_query_building_witness :
    validate_bbox (-93, 46, -92, 47) = .ok (-93, 46, -92, 47) ∧
    create_hls_query (some (-93, 46, -92, 47)) none =
      .ok { collection_concept_ids := ["C2021957657-LPCLOUD", "C2021957295-LPCLOUD"],
            bounding_box := some (-93, 46, -92, 47),
            temporal := none,
            format := some "json" } :=
  ⟨(bbox_validator_unused_in_query_building (-93) 46 (-92) 47).1.mpr (by norm_num),
    (bbox_validator_unused_in_query_building (-93) 46 (-92) 47).2.2.2
      (some (-93, 46, -92, 47)) none⟩

/-- C9 counterexample: an invocation of the daily cache writer whose query
yields zero links returns successfully — persisting the empty JSON array at
the computed cache path — instead of failing with an empty-result error. -/
theorem daily_cache_empty_returns_ok :
    cache_daily_stac_json_links HlsCollection.HLSL30 2025 10 1 [] false [] =
      .ok ([(link_path HlsCollection.HLSL30.collection_id 2025 10 1, "[]")], 1, true) := by
  rfl

/-- C9 (amended): every invocation of the daily cache writer whose query
yields zero links returns successfully, writing the empty JSON array at the
cache path; the zero-links failure exists only in the separate
whole-workflow entry point `hls_to_stac_geoparquet`, which raises exactly
when the extracted link list is empty. -/
theorem daily_cache_empty_policy (c : HlsCollection) (year month day : Nat)
    (store : StoreState) :
    cache_daily_stac_json_links c year month day [] false store =
      .ok (store_put store (link_path c.collection_id year month day) "[]", 1, true) ∧
    hls_to_stac_geoparquet_link_check [] =
      .error "No STAC JSON links found in CMR results" ∧
    (∀ (l : String) (ls : List String),
      hls_to_stac_geoparquet_link_check (l :: ls) = .ok ()) := by
  exact ⟨rfl, rfl, fun l ls => rfl⟩

/-- Witness for the amended C9: concrete empty-query invocation. -/
theorem daily_cache_empty_policy_witness :
    cache_daily_stac_json_links HlsCollection.HLSS30 2015 11 28 [] false [] =
      .ok (store_put []
            (link_path HlsCollection.HLSS30.collection_id 2015 11 28) "[]", 1, true) :=
  (daily_cache_empty_policy HlsCollection.HLSS30 2015 11 28 []).1

/-- C10: in every state reachable by the semaphore-gated batch of `k` fetch
tasks under the shared concurrency limit `N`, the number of in-flight
fetches never exceeds `N` across the whole batch: the semaphore is acquired
before each fetch and released on every exit path, success or failure. -/
theorem fetcher_concurrency_ceiling (N k : Nat) (s : List TaskPhase)
    (h : FetchReachable N k s) : inflight_count s ≤ N := by
  induction h with
  | init =>
    rw [inflight_count_replicate]
    exact Nat.zero_le N
  | step h1 h2 ih =>
    cases h2 with
    | acquire i hp hsem =>
      have hc := countP_set_phase (fun u => u == TaskPhase.inflight) _ i _
        TaskPhase.inflight hp
      simp only [show (TaskPhase.pending == TaskPhase.inflight) = false from rfl,
        show (TaskPhase.inflight == TaskPhase.inflight) = true from rfl,
        Bool.false_eq_true, if_false, if_true] at hc
      unfold inflight_count at hsem ⊢
      omega
    | finish_ok i hf =>
      have hc := countP_set_phase (fun u => u == TaskPhase.inflight) _ i _
        TaskPhase.doneOk hf
      simp only [show (TaskPhase.inflight == TaskPhase.inflight) = true from rfl,
        show (TaskPhase.doneOk == TaskPhase.inflight) = false from rfl,
        Bool.false_eq_true, if_false, if_true] at hc
      unfold inflight_count at ih ⊢
      omega
    | finish_failed i hf =>
      have hc := countP_set_phase (fun u => u == TaskPhase.inflight) _ i _
        TaskPhase.doneFailed hf
      simp only [show (TaskPhase.inflight == TaskPhase.inflight) = true from rfl,
        show (TaskPhase.doneFailed == TaskPhase.inflight) = false from rfl,
        Bool.false_eq_true, if_false, if_true] at hc
      unfold inflight_count at ih ⊢
      omega

/-- Witness for C10: with limit 1 over a batch of two tasks, the state where
the first task holds the semaphore is reachable and satisfies the ceiling. -/
theorem fetcher_concurrency_ceiling_witness :
    inflight_count [TaskPhase.inflight, TaskPhase.pending] ≤ 1 :=
  fetcher_concurrency_ceiling 1 2 _
    (FetchReachable.step FetchReachable.init
      (show FetchStep 1 (List.replicate 2 TaskPhase.pending)
          ((List.replicate 2 TaskPhase.pending).set 0 TaskPhase.inflight) from
        FetchStep.acquire _ 0 rfl (by decide)))

end HlsStacParquet
